import Mathlib

/-!
# Verification of the stock-market-analyzer numeric pipeline

Shallow embedding of `src/app.py` (a pandas/numpy analysis pipeline).

A pandas `DataFrame` of adjusted close prices is modelled as a list of rows,
each row a list of cells, one per ticker (dates are only an ordering, so they
are left implicit; the row order carries them).  Exact field arithmetic
replaces floating point; a `NaN` cell produced by `pct_change` is modelled as
`Option.none`.  Functions that need `sqrt` live over `ℝ`; the rest is
polymorphic over a `Field` so that concrete evaluations can run over `ℚ`.

Randomness in the Monte-Carlo simulation is modelled by passing the draw
sequence explicitly: `draws path step tickerIdx` is the value that
`np.random.normal(0, daily_vol, len(last_price))` produced at that point, so
theorems quantify over every possible sequence of draws.
-/

namespace StockApp

/-- A pandas DataFrame: a list of rows (dates, ascending), each row a list of
cells (one per ticker, in ticker order). -/
abbrev DataFrame (α : Type) := List (List α)

/-- `df.empty` in pandas: true iff the frame has no cells (no rows, or no
columns). -/
def isEmpty {α : Type} (df : DataFrame α) : Bool :=
  df.isEmpty || df.all List.isEmpty

/-- Rows `1, 2, …` of `stock_data.pct_change()`: cell `t,j` is
`row_t[j] / row_{t-1}[j] - 1`.  `prev` is the previous row. -/
def pct_changeAux {α : Type} [Field α] (prev : List α) :
    DataFrame α → List (List (Option α))
  | [] => []
  | r :: rs => (List.zipWith (fun c p => some (c / p - 1)) r prev) :: pct_changeAux r rs

/-- `stock_data.pct_change()`: the first row is all-`NaN` (`none`), every later
cell is the percent change from the previous row. -/
def pct_change {α : Type} [Field α] : DataFrame α → List (List (Option α))
  | [] => []
  | r :: rs => (r.map fun _ => (none : Option α)) :: pct_changeAux r rs

/-- `.dropna()`: keep only the rows with no `NaN`, and strip the `Option`. -/
def dropna {α : Type} (df : List (List (Option α))) : DataFrame α :=
  (df.filter fun r => r.all Option.isSome).map fun r => r.filterMap id

/-- `daily_returns = stock_data.pct_change().dropna()`  (app.py line 48). -/
def daily_returns {α : Type} [Field α] (df : DataFrame α) : DataFrame α :=
  dropna (pct_change df)

/-- Column `j` of a DataFrame (the series of ticker `j`). -/
def col {α : Type} [Zero α] (df : DataFrame α) (j : ℕ) : List α :=
  df.map fun r => r.getD j 0

/-- Sample mean of a series (what `pandas` uses inside `std`/`corr`). -/
def mean {α : Type} [Field α] (xs : List α) : α := xs.sum / xs.length

/-- Sample covariance of two equal-length series, pandas default `ddof = 1`:
`Σ (x_i - x̄)(y_i - ȳ) / (n - 1)` (the `n ≤ 1` cases divide by zero, which
exact arithmetic sends to `0`). -/
def cov {α : Type} [Field α] (xs ys : List α) : α :=
  (∑ i ∈ Finset.range xs.length,
      (xs.getD i 0 - mean xs) * (ys.getD i 0 - mean ys)) / ((xs.length - 1 : ℕ) : α)

/-- Sample variance, `ddof = 1`. -/
def svar {α : Type} [Field α] (xs : List α) : α := cov xs xs

/-- `Series.std()`: square root of the sample variance. -/
noncomputable def std (xs : List ℝ) : ℝ := Real.sqrt (svar xs)

/-- `annualized_risk = daily_returns.std() * np.sqrt(252) * 100`
(app.py lines 52-53), for ticker `j`. -/
noncomputable def annualized_risk (returns : DataFrame ℝ) (j : ℕ) : ℝ :=
  std (col returns j) * Real.sqrt 252 * 100

/-- Pearson correlation of two series, as `DataFrame.corr()` computes it:
`cov(x, y) / (std x * std y)` (the `ddof` factors cancel). -/
noncomputable def corr (xs ys : List ℝ) : ℝ := cov xs ys / (std xs * std ys)

/-- `correlation_matrix = daily_returns.corr()` (app.py line 79), entry `i j`. -/
noncomputable def correlation_matrix (returns : DataFrame ℝ) (i j : ℕ) : ℝ :=
  corr (col returns i) (col returns j)

/-- Running product with seed `a`: `cumprodFrom a [x₁, x₂, …] = [a*x₁, a*x₁*x₂, …]`. -/
def cumprodFrom {α : Type} [Field α] (a : α) : List α → List α
  | [] => []
  | x :: xs => (a * x) :: cumprodFrom (a * x) xs

/-- `cumulative_returns = (1 + daily_returns).cumprod()` (app.py line 94);
pandas `cumprod` works per column, so this is the column of ticker `j`. -/
def cumulative_returns {α : Type} [Field α] (returns : DataFrame α) (j : ℕ) : List α :=
  cumprodFrom 1 ((col returns j).map fun r => 1 + r)

/-- `num_simulations = 50` (app.py line 106). -/
def num_simulations : ℕ := 50

/-- `num_days = 252` (app.py line 107). -/
def num_days : ℕ := 252

/-- Elementwise `p * (1 + z)` starting at ticker index `i`:
`np.random.normal(0, daily_vol, len(last_price))` returns one draw per ticker,
and the numpy product is elementwise. -/
def perturbFrom (z : ℕ → ℝ) (i : ℕ) : List ℝ → List ℝ
  | [] => []
  | a :: rest => a * (1 + z i) :: perturbFrom z (i + 1) rest

/-- `price * (1 + np.random.normal(0, daily_vol, len(last_price)))` with draw
vector `z`. -/
def perturb (z : ℕ → ℝ) (p : List ℝ) : List ℝ := perturbFrom z 0 p

/-- The price vector after step `t` of one simulated path (app.py lines
117-125): entry `0` is the start point, already perturbed once away from
`last_price`; each later entry multiplies the previous one by `1 + draw`.
`z step i` is the normal draw for ticker `i` at step `step`. -/
def simPrice (last : List ℝ) (z : ℕ → ℕ → ℝ) : ℕ → List ℝ
  | 0 => perturb (z 0) last
  | t + 1 => perturb (z (t + 1)) (simPrice last z t)

/-- `price_series` of one path: the loop body appends until `count == 251`
breaks it, leaving exactly 252 price vectors (app.py lines 116-125). -/
def price_series (last : List ℝ) (z : ℕ → ℕ → ℝ) : List (List ℝ) :=
  (List.range num_days).map (simPrice last z)

/-- `simulation_df[x] = [p[0] for p in price_series]` (app.py line 128): only
the first ticker of each price vector is kept. -/
def simColumn (last : List ℝ) (z : ℕ → ℕ → ℝ) : List ℝ :=
  (price_series last z).map fun p => p.headD 0

/-- The full simulation table, one column per path (app.py lines 110-128);
`draws path step i` supplies the random draw used by path `path` at step
`step` for ticker `i`. -/
def simulation_df (last : List ℝ) (draws : ℕ → ℕ → ℕ → ℝ) : List (List ℝ) :=
  (List.range num_simulations).map fun x => simColumn last (draws x)

/-- The five data structures the analysis hands to the presentation layer. -/
structure AnalysisResult where
  daily_returns : DataFrame ℝ
  annualized_risk : ℕ → ℝ
  correlation_matrix : ℕ → ℕ → ℝ
  cumulative_returns : ℕ → List ℝ
  simulation : (ℕ → ℕ → ℕ → ℝ) → List (List ℝ)

/-- The pipeline behind the "Analyze Portfolio" button (app.py lines 31-131):
one `stock_data.empty` check guards everything; otherwise every stage runs.
`last_price = stock_data.iloc[-1]` is the last row. -/
noncomputable def analyze (stock_data : DataFrame ℝ) : Except String AnalysisResult :=
  if isEmpty stock_data then
    Except.error "No data found. Please check ticker symbols."
  else
    Except.ok
      { daily_returns := daily_returns stock_data
        annualized_risk := fun j => annualized_risk (daily_returns stock_data) j
        correlation_matrix := fun i j => correlation_matrix (daily_returns stock_data) i j
        cumulative_returns := fun j => cumulative_returns (daily_returns stock_data) j
        simulation := fun draws => simulation_df (stock_data.getLastD []) draws }

/-- Python `tickers.split(',')` with the string as a char list: split at every
comma, keeping empty segments, so the result always has one segment more than
there are commas (`''.split(',') == ['']`). -/
def split_commas : List Char → List (List Char)
  | [] => [[]]
  | c :: rest =>
    match split_commas rest with
    | [] => [[c]]
    | g :: gs => if c = ',' then [] :: g :: gs else (c :: g) :: gs

/-- Python `x.strip()`: drop leading and trailing whitespace. -/
def stripChars (l : List Char) : List Char :=
  ((l.dropWhile Char.isWhitespace).reverse.dropWhile Char.isWhitespace).reverse

/-- Python `x.upper()`. -/
def upperChars (l : List Char) : List Char := l.map Char.toUpper

/-- `ticker_list = [x.strip().upper() for x in tickers.split(',')]`
(app.py line 28). -/
def ticker_list (tickers : List Char) : List (List Char) :=
  (split_commas tickers).map fun x => upperChars (stripChars x)

lemma length_col {α : Type} [Zero α] (df : DataFrame α) (j : ℕ) :
    (col df j).length = df.length := by
  simp [col]

/-- Every cell `pct_changeAux` makes is `some _`. -/
lemma all_isSome_pct_changeAux {α : Type} [Field α] (prev r : List α) :
    (List.zipWith (fun c p => some (c / p - 1)) r prev).all Option.isSome = true := by
  induction r generalizing prev with
  | nil => simp
  | cons c cs ih =>
    cases prev with
    | nil => simp
    | cons p ps => simpa using ih ps

lemma dropna_pct_changeAux {α : Type} [Field α] (prev : List α) (rs : DataFrame α) :
    (dropna (pct_changeAux prev rs)).length = rs.length := by
  induction rs generalizing prev with
  | nil => simp [dropna, pct_changeAux]
  | cons r rest ih =>
    simp only [pct_changeAux, dropna, List.filter_cons,
      all_isSome_pct_changeAux prev r, if_true]
    simpa [dropna] using ih r

/-- **C1 core.**  On a rectangular, non-empty price table the returns table has
exactly one fewer row: the first `pct_change` row is all-`NaN` and is dropped,
every later row survives `dropna`. -/
theorem daily_returns_length {α : Type} [Field α] (df : DataFrame α) (w : ℕ)
    (hw : ∀ r ∈ df, r.length = w) (hne : isEmpty df = false) :
    (daily_returns df).length = df.length - 1 := by
  cases df with
  | nil => simp [isEmpty] at hne
  | cons r rs =>
    have hr : r ≠ [] := by
      intro h0
      have hwr : r.length = w := hw r (by simp)
      have hw0 : w = 0 := by simpa [h0] using hwr.symm
      simp only [isEmpty, List.isEmpty_cons, Bool.false_or, List.all_cons] at hne
      rcases Bool.and_eq_false_iff.mp hne with h | h
      · simp [h0] at h
      · rcases List.all_eq_false.mp h with ⟨x, hx, hxe⟩
        have : x.length = w := hw x (by simp [hx])
        have : x = [] := List.length_eq_zero.mp (by omega)
        simp [this] at hxe
    have hfirst : ((r.map fun _ => (none : Option α)).all Option.isSome) = false := by
      cases r with
      | nil => exact absurd rfl hr
      | cons a l => simp
    simp only [daily_returns, pct_change, dropna, List.filter_cons, hfirst]
    simpa [dropna] using dropna_pct_changeAux r rs

lemma getD_map_of_lt {α β : Type} (f : α → β) (xs : List α) (t : ℕ) (da : α) (db : β)
    (ht : t < xs.length) : (xs.map f).getD t db = f (xs.getD t da) := by
  rw [List.getD_eq_getElem _ _ (by simpa using ht), List.getD_eq_getElem _ _ ht,
    List.getElem_map]

lemma getD_map_range {β : Type} (f : ℕ → β) (d : β) (t n : ℕ) (ht : t < n) :
    ((List.range n).map f).getD t d = f t := by
  rw [List.getD_eq_getElem _ _ (by simpa using ht)]
  simp

lemma length_cumprodFrom {α : Type} [Field α] (a : α) (xs : List α) :
    (cumprodFrom a xs).length = xs.length := by
  induction xs generalizing a with
  | nil => rfl
  | cons x rest ih => simp [cumprodFrom, ih]

/-- Entry `t` of a running product with seed `a` is `a` times the product of
the first `t + 1` factors. -/
lemma getD_cumprodFrom {α : Type} [Field α] (xs : List α) (a : α) (t : ℕ)
    (ht : t < xs.length) :
    (cumprodFrom a xs).getD t 0 = a * ∏ s ∈ Finset.range (t + 1), xs.getD s 0 := by
  induction xs generalizing a t with
  | nil => simp at ht
  | cons x rest ih =>
    cases t with
    | zero => simp [cumprodFrom]
    | succ t =>
      have ht' : t < rest.length := by simpa using ht
      rw [cumprodFrom, List.getD_cons_succ, ih (a * x) t ht']
      conv_rhs => rw [Finset.prod_range_succ']
      simp only [List.getD_cons_succ, List.getD_cons_zero]
      ring

/-- Entry `t` of the cumulative-return column of ticker `j` is the product of
`1 + return` over the first `t + 1` retained dates. -/
lemma cumulative_returns_getD {α : Type} [Field α] (R : DataFrame α) (j t : ℕ)
    (ht : t < R.length) :
    (cumulative_returns R j).getD t 0 =
      ∏ s ∈ Finset.range (t + 1), (1 + (col R j).getD s 0) := by
  have hlen : ((col R j).map fun r => 1 + r).length = R.length := by simp [col]
  rw [cumulative_returns, getD_cumprodFrom _ _ t (by rw [hlen]; exact ht), one_mul]
  refine Finset.prod_congr rfl fun s hs => ?_
  have hs' : s < (col R j).length := by
    rw [length_col]
    have := Finset.mem_range.mp hs
    omega
  exact getD_map_of_lt _ _ s 0 0 hs'

lemma svar_nonneg (xs : List ℝ) : 0 ≤ svar xs := by
  rw [svar, cov]
  apply div_nonneg
  · exact Finset.sum_nonneg fun i _ => mul_self_nonneg _
  · exact Nat.cast_nonneg _

lemma std_nonneg (xs : List ℝ) : 0 ≤ std xs := Real.sqrt_nonneg _

lemma cov_comm {α : Type} [Field α] (xs ys : List α) (h : xs.length = ys.length) :
    cov xs ys = cov ys xs := by
  rw [cov, cov, h]
  congr 1
  exact Finset.sum_congr rfl fun i _ => mul_comm _ _

lemma div_sq_le_div_mul_div (S A B d : ℝ) (hd : 0 ≤ d) (hS : S ^ 2 ≤ A * B) :
    (S / d) ^ 2 ≤ (A / d) * (B / d) := by
  rcases eq_or_lt_of_le hd with h0 | hpos
  · rw [← h0]
    simp
  · rw [div_pow, div_mul_div_comm, pow_two d]
    exact (div_le_div_iff_of_pos_right (mul_pos hpos hpos)).mpr hS

/-- Cauchy-Schwarz for the sample covariance:
`|cov(x, y)| ≤ std x * std y`. -/
lemma abs_cov_le (xs ys : List ℝ) (h : xs.length = ys.length) :
    |cov xs ys| ≤ std xs * std ys := by
  rw [std, std, ← Real.sqrt_mul (svar_nonneg xs)]
  apply Real.abs_le_sqrt
  simp only [svar, cov, h]
  have key := Finset.sum_mul_sq_le_sq_mul_sq (Finset.range ys.length)
    (fun i => xs.getD i 0 - mean xs) (fun i => ys.getD i 0 - mean ys)
  refine div_sq_le_div_mul_div _ _ _ _ (Nat.cast_nonneg _) ?_
  calc (∑ i ∈ Finset.range ys.length,
        (xs.getD i 0 - mean xs) * (ys.getD i 0 - mean ys)) ^ 2
      ≤ (∑ i ∈ Finset.range ys.length, (xs.getD i 0 - mean xs) ^ 2) *
        (∑ i ∈ Finset.range ys.length, (ys.getD i 0 - mean ys) ^ 2) := key
    _ = (∑ i ∈ Finset.range ys.length,
          (xs.getD i 0 - mean xs) * (xs.getD i 0 - mean xs)) *
        (∑ i ∈ Finset.range ys.length,
          (ys.getD i 0 - mean ys) * (ys.getD i 0 - mean ys)) := by
        simp only [pow_two]

lemma abs_corr_le_one (xs ys : List ℝ) (h : xs.length = ys.length) :
    |corr xs ys| ≤ 1 := by
  rw [corr]
  rcases eq_or_lt_of_le (mul_nonneg (std_nonneg xs) (std_nonneg ys)) with h0 | hpos
  · have hc : cov xs ys = 0 := by
      have hle := abs_cov_le xs ys h
      rw [← h0] at hle
      exact abs_eq_zero.mp (le_antisymm hle (abs_nonneg _))
    rw [hc]
    simp
  · rw [abs_div, abs_of_pos hpos, div_le_one hpos]
    exact abs_cov_le xs ys h

lemma corr_self (xs : List ℝ) (h : svar xs ≠ 0) : corr xs xs = 1 := by
  have hss : std xs * std xs = svar xs := Real.mul_self_sqrt (svar_nonneg xs)
  rw [corr, hss, ← svar, div_self h]

lemma length_perturbFrom (z : ℕ → ℝ) (k : ℕ) (p : List ℝ) :
    (perturbFrom z k p).length = p.length := by
  induction p generalizing k with
  | nil => rfl
  | cons a rest ih => simp [perturbFrom, ih]

lemma length_simPrice (last : List ℝ) (z : ℕ → ℕ → ℝ) (t : ℕ) :
    (simPrice last z t).length = last.length := by
  induction t with
  | zero => simp [simPrice, perturb, length_perturbFrom]
  | succ t ih => simp [simPrice, perturb, length_perturbFrom, ih]

lemma getD_perturbFrom (z : ℕ → ℝ) (p : List ℝ) (k i : ℕ) (hi : i < p.length) :
    (perturbFrom z k p).getD i 0 = p.getD i 0 * (1 + z (k + i)) := by
  induction p generalizing k i with
  | nil => simp at hi
  | cons a rest ih =>
    cases i with
    | zero => simp [perturbFrom]
    | succ i =>
      have hi' : i < rest.length := by simpa using hi
      have hk : k + (i + 1) = (k + 1) + i := by omega
      rw [perturbFrom, List.getD_cons_succ, List.getD_cons_succ, ih (k + 1) i hi', hk]

lemma getD_perturb (z : ℕ → ℝ) (p : List ℝ) (i : ℕ) (hi : i < p.length) :
    (perturb z p).getD i 0 = p.getD i 0 * (1 + z i) := by
  simpa using getD_perturbFrom z p 0 i hi

lemma headD_perturb (z : ℕ → ℝ) (p : List ℝ) (hp : p ≠ []) :
    (perturb z p).headD 0 = p.headD 0 * (1 + z 0) := by
  cases p with
  | nil => exact absurd rfl hp
  | cons a rest => rfl

lemma simPrice_ne_nil (last : List ℝ) (z : ℕ → ℕ → ℝ) (hlast : last ≠ []) (t : ℕ) :
    simPrice last z t ≠ [] := by
  intro h
  have hl := length_simPrice last z t
  rw [h] at hl
  exact hlast (List.length_eq_zero.mp hl.symm)

/-- Index 0 of every simulated price vector stays positive when the last
observed price at index 0 is positive and every draw exceeds `-1`. -/
lemma simPrice_headD_pos (last : List ℝ) (z : ℕ → ℕ → ℝ) (hlast : last ≠ [])
    (h0 : 0 < last.headD 0) (hz : ∀ t i, -1 < z t i) (t : ℕ) :
    0 < (simPrice last z t).headD 0 := by
  induction t with
  | zero =>
    rw [show simPrice last z 0 = perturb (z 0) last from rfl, headD_perturb _ _ hlast]
    have hfac : (0 : ℝ) < 1 + z 0 0 := by have := hz 0 0; linarith
    exact mul_pos h0 hfac
  | succ t ih =>
    rw [show simPrice last z (t + 1) = perturb (z (t + 1)) (simPrice last z t) from rfl,
      headD_perturb _ _ (simPrice_ne_nil last z hlast t)]
    have hfac : (0 : ℝ) < 1 + z (t + 1) 0 := by have := hz (t + 1) 0; linarith
    exact mul_pos ih hfac

lemma split_commas_ne_nil (s : List Char) : split_commas s ≠ [] := by
  induction s with
  | nil => simp [split_commas]
  | cons c rest ih =>
    cases h : split_commas rest with
    | nil => exact absurd h ih
    | cons g gs => by_cases hc : c = ',' <;> simp [split_commas, h, hc]

/-- Every character of every segment of `split_commas s` comes from `s` and is
not a comma. -/
lemma mem_split_commas (s : List Char) :
    ∀ g ∈ split_commas s, ∀ c ∈ g, c ∈ s ∧ ¬ c = ',' := by
  induction s with
  | nil =>
    intro g hg c hc
    simp [split_commas] at hg
    simp [hg] at hc
  | cons a rest ih =>
    intro g hg c hc
    cases h : split_commas rest with
    | nil => exact absurd h (split_commas_ne_nil rest)
    | cons g0 gs =>
      simp only [split_commas, h] at hg
      by_cases ha : a = ','
      · rw [if_pos ha] at hg
        rcases List.mem_cons.mp hg with h1 | h2
        · subst h1
          simp at hc
        · have hmem : g ∈ split_commas rest := by rw [h]; exact h2
          obtain ⟨hin, hnc⟩ := ih g hmem c hc
          exact ⟨List.mem_cons_of_mem a hin, hnc⟩
      · rw [if_neg ha] at hg
        rcases List.mem_cons.mp hg with h1 | h2
        · subst h1
          rcases List.mem_cons.mp hc with hca | hcg
          · rw [hca]
            exact ⟨List.mem_cons_self a rest, ha⟩
          · have hmem : g0 ∈ split_commas rest := by
              rw [h]; exact List.mem_cons_self g0 gs
            obtain ⟨hin, hnc⟩ := ih g0 hmem c hcg
            exact ⟨List.mem_cons_of_mem a hin, hnc⟩
        · have hmem : g ∈ split_commas rest := by
            rw [h]; exact List.mem_cons_of_mem g0 h2
          obtain ⟨hin, hnc⟩ := ih g hmem c hc
          exact ⟨List.mem_cons_of_mem a hin, hnc⟩

lemma stripChars_of_all_whitespace (l : List Char)
    (h : ∀ c ∈ l, c.isWhitespace = true) : stripChars l = [] := by
  have h1 : l.dropWhile Char.isWhitespace = [] := List.dropWhile_eq_nil_iff.mpr h
  rw [stripChars, h1]
  rfl

lemma analyze_eq_ok {df : DataFrame ℝ} (hne : isEmpty df = false) :
    analyze df = Except.ok
      { daily_returns := daily_returns df
        annualized_risk := fun j => annualized_risk (daily_returns df) j
        correlation_matrix := fun i j => correlation_matrix (daily_returns df) i j
        cumulative_returns := fun j => cumulative_returns (daily_returns df) j
        simulation := fun draws => simulation_df (df.getLastD []) draws } := by
  simp [analyze, hne]

end StockApp

/-- **C1.** For every ticker list and every (rectangular, non-empty — the
pipeline only computes returns on non-empty data) price table, the returns
table produced by `pct_change().dropna()` has exactly one fewer row than the
price table. -/
theorem C1_returns_one_fewer_row {α : Type} [Field α] (df : StockApp.DataFrame α)
    (w : ℕ) (hw : ∀ r ∈ df, r.length = w) (hne : StockApp.isEmpty df = false) :
    (StockApp.daily_returns df).length = df.length - 1 :=
  StockApp.daily_returns_length df w hw hne

/-- Witness for C1 at the concrete 3-row, 1-ticker table `[[100],[101],[99]]`. -/
theorem C1_witness :
    (StockApp.daily_returns ([[(100 : ℚ)], [101], [99]])).length =
      ([[(100 : ℚ)], [101], [99]] : StockApp.DataFrame ℚ).length - 1 :=
  C1_returns_one_fewer_row ([[(100 : ℚ)], [101], [99]]) 1 (by decide) (by decide)

/-- **C2.** The pipeline reports the "no data" error exactly on an empty price
table, and on every non-empty table it takes the success branch (producing all
downstream structures); the error branch produces nothing but the message. -/
theorem C2_empty_table_error (df : StockApp.DataFrame ℝ) :
    (StockApp.analyze df = Except.error "No data found. Please check ticker symbols." ↔
      StockApp.isEmpty df = true) ∧
    ((∃ res, StockApp.analyze df = Except.ok res) ↔ StockApp.isEmpty df = false) := by
  cases h : StockApp.isEmpty df <;> simp [StockApp.analyze, h]

/-- **C3.** For every ticker `j` whose daily-return series has standard
deviation `σ`, the pipeline succeeds on the (non-empty) price table and its
annualized risk for `j` equals `σ * √252 * 100`. -/
theorem C3_annualized_risk (df : StockApp.DataFrame ℝ) (j : ℕ) (σ : ℝ)
    (hne : StockApp.isEmpty df = false)
    (hσ : StockApp.std (StockApp.col (StockApp.daily_returns df) j) = σ) :
    ∃ res, StockApp.analyze df = Except.ok res ∧
      res.annualized_risk j = σ * Real.sqrt 252 * 100 := by
  refine ⟨_, StockApp.analyze_eq_ok hne, ?_⟩
  show StockApp.std (StockApp.col (StockApp.daily_returns df) j) * Real.sqrt 252 * 100 =
    σ * Real.sqrt 252 * 100
  rw [hσ]

/-- Witness for C3 on the table `[[1], [2]]` with `σ` the std of its returns. -/
theorem C3_witness :
    ∃ res, StockApp.analyze [[(1 : ℝ)], [2]] = Except.ok res ∧
      res.annualized_risk 0 =
        StockApp.std (StockApp.col (StockApp.daily_returns [[(1 : ℝ)], [2]]) 0) *
          Real.sqrt 252 * 100 :=
  C3_annualized_risk [[(1 : ℝ)], [2]] 0 _ rfl rfl

/-- **C9.** A one-row price table is non-empty, so the pipeline takes the
success branch: no error is signalled even though the returns table is empty,
and the risk, correlation, cumulative-return and simulation structures are all
produced (the simulation from the single row as last price). -/
theorem C9_single_row_no_error (r : List ℝ) (hr : r ≠ []) :
    ∃ res, StockApp.analyze [r] = Except.ok res ∧
      res.daily_returns = [] ∧
      res.simulation = fun draws => StockApp.simulation_df r draws := by
  obtain ⟨a, l, rfl⟩ := List.exists_cons_of_ne_nil hr
  have hne : StockApp.isEmpty [a :: l] = false := by simp [StockApp.isEmpty]
  refine ⟨_, StockApp.analyze_eq_ok hne, ?_, ?_⟩
  · show StockApp.daily_returns [a :: l] = []
    simp [StockApp.daily_returns, StockApp.pct_change, StockApp.pct_changeAux,
      StockApp.dropna]
  · rfl

/-- Witness for C9 at the one-row table `[[1]]`. -/
theorem C9_witness :
    ∃ res, StockApp.analyze [[(1 : ℝ)]] = Except.ok res ∧
      res.daily_returns = [] ∧
      res.simulation = fun draws => StockApp.simulation_df [(1 : ℝ)] draws :=
  C9_single_row_no_error [(1 : ℝ)] (by simp)

/-- **C7.** For every returns table and ticker, the cumulative-return series is
the running product of `1 + daily return`, and its value on the first retained
date is `1 +` that date's daily return. -/
theorem C7_cumulative_running_product {α : Type} [Field α] (R : StockApp.DataFrame α)
    (j t : ℕ) (ht : t < R.length) :
    (StockApp.cumulative_returns R j).getD t 0 =
      (∏ s ∈ Finset.range (t + 1), (1 + (StockApp.col R j).getD s 0)) ∧
    (StockApp.cumulative_returns R j).getD 0 0 = 1 + (StockApp.col R j).getD 0 0 := by
  refine ⟨StockApp.cumulative_returns_getD R j t ht, ?_⟩
  rw [StockApp.cumulative_returns_getD R j 0 (lt_of_le_of_lt (Nat.zero_le t) ht),
    Finset.prod_range_one]

/-- Witness for C7 on the one-row returns table `[[2]]` over `ℚ`. -/
theorem C7_witness :
    (StockApp.cumulative_returns ([[(2 : ℚ)]]) 0).getD 0 0 =
      (∏ s ∈ Finset.range (0 + 1), (1 + (StockApp.col ([[(2 : ℚ)]]) 0).getD s 0)) ∧
    (StockApp.cumulative_returns ([[(2 : ℚ)]]) 0).getD 0 0 =
      1 + (StockApp.col ([[(2 : ℚ)]]) 0).getD 0 0 :=
  C7_cumulative_running_product ([[(2 : ℚ)]]) 0 0 (by decide)

/-- **C8.** The concrete single-ticker scenario: prices
`[100, 101, 99, 102, 103]` give daily returns
`[1/100, -2/101, 1/33, 1/102] ≈ [0.01, -0.0198, 0.0303, 0.0098]`
(each within `10⁻⁵`), and the final cumulative return is `103/100 = 1.03`. -/
theorem C8_concrete_scenario :
    StockApp.daily_returns ([[(100 : ℚ)], [101], [99], [102], [103]]) =
      [[1/100], [-(2/101)], [1/33], [1/102]] ∧
    (|(StockApp.col (StockApp.daily_returns
        ([[(100 : ℚ)], [101], [99], [102], [103]])) 0).getD 0 0 - 0.01| ≤ 1/100000 ∧
     |(StockApp.col (StockApp.daily_returns
        ([[(100 : ℚ)], [101], [99], [102], [103]])) 0).getD 1 0 - (-0.0198)| ≤ 1/100000 ∧
     |(StockApp.col (StockApp.daily_returns
        ([[(100 : ℚ)], [101], [99], [102], [103]])) 0).getD 2 0 - 0.0303| ≤ 1/100000 ∧
     |(StockApp.col (StockApp.daily_returns
        ([[(100 : ℚ)], [101], [99], [102], [103]])) 0).getD 3 0 - 0.0098| ≤ 1/100000) ∧
    (StockApp.cumulative_returns
        (StockApp.daily_returns ([[(100 : ℚ)], [101], [99], [102], [103]])) 0).getLastD 0 =
      103/100 := by
  have h1 : StockApp.daily_returns ([[(100 : ℚ)], [101], [99], [102], [103]]) =
      [[1/100], [-(2/101)], [1/33], [1/102]] := by
    norm_num [StockApp.daily_returns, StockApp.pct_change, StockApp.pct_changeAux,
      StockApp.dropna, List.filterMap_cons]
  refine ⟨h1, ⟨?_, ?_, ?_, ?_⟩, ?_⟩ <;> rw [h1]
  · simp only [StockApp.col, List.map, List.getD_cons_zero, List.getD]
    rw [abs_le]
    constructor <;> norm_num
  · simp only [StockApp.col, List.map, List.getD_cons_succ, List.getD_cons_zero, List.getD]
    rw [abs_le]
    constructor <;> norm_num
  · simp only [StockApp.col, List.map, List.getD_cons_succ, List.getD_cons_zero, List.getD]
    rw [abs_le]
    constructor <;> norm_num
  · simp only [StockApp.col, List.map, List.getD_cons_succ, List.getD_cons_zero, List.getD]
    rw [abs_le]
    constructor <;> norm_num
  · simp only [StockApp.cumulative_returns, StockApp.col, StockApp.cumprodFrom, List.map,
      List.getD_cons_zero, List.getLastD]
    norm_num

/-- **C6.** The correlation matrix of any returns table is symmetric, every
entry lies in `[-1, 1]`, and a diagonal entry is `1` whenever that ticker's
return series has nonzero variance. -/
theorem C6_correlation_matrix (R : StockApp.DataFrame ℝ) (i j : ℕ) :
    StockApp.correlation_matrix R i j = StockApp.correlation_matrix R j i ∧
    -1 ≤ StockApp.correlation_matrix R i j ∧
    StockApp.correlation_matrix R i j ≤ 1 ∧
    (StockApp.svar (StockApp.col R i) ≠ 0 → StockApp.correlation_matrix R i i = 1) := by
  have hlen : (StockApp.col R i).length = (StockApp.col R j).length := by
    rw [StockApp.length_col, StockApp.length_col]
  have habs := StockApp.abs_corr_le_one _ _ hlen
  refine ⟨?_, (abs_le.mp habs).1, (abs_le.mp habs).2, ?_⟩
  · rw [StockApp.correlation_matrix, StockApp.correlation_matrix, StockApp.corr,
      StockApp.corr, StockApp.cov_comm _ _ hlen, mul_comm]
  · intro hv
    exact StockApp.corr_self _ hv

/-- Witness for C6: the diagonal entry of the returns table `[[0], [1]]`
(variance `1/2 ≠ 0`) is `1`. -/
theorem C6_witness : StockApp.correlation_matrix [[(0 : ℝ)], [1]] 0 0 = 1 := by
  apply (C6_correlation_matrix [[(0 : ℝ)], [1]] 0 0).2.2.2
  have hc : StockApp.col [[(0 : ℝ)], [1]] 0 = [0, 1] := by simp [StockApp.col]
  rw [hc]
  have hv : StockApp.svar [(0 : ℝ), 1] = 1/2 := by
    norm_num [StockApp.svar, StockApp.cov, StockApp.mean, Finset.sum_range_succ,
      List.getD_cons_zero, List.getD_cons_succ, List.sum_cons]
  rw [hv]
  norm_num

/-- **C4.** Path structure of the Monte-Carlo simulation, for every draw
sequence: the first stored price vector is already `last_price * (1 + draw)`
(one perturbation away from the last real price), each later vector is the
previous one times `1 + draw` elementwise, and the stored table keeps only
index 0 (the first ticker) of each vector, one column per path. -/
theorem C4_simulation_steps (last : List ℝ) (z : ℕ → ℕ → ℝ)
    (draws : ℕ → ℕ → ℕ → ℝ) (x t i : ℕ)
    (hx : x < StockApp.num_simulations) (ht : t < StockApp.num_days)
    (hi : i < last.length) :
    (StockApp.simPrice last z 0).getD i 0 = last.getD i 0 * (1 + z 0 i) ∧
    (StockApp.simPrice last z (t + 1)).getD i 0 =
      (StockApp.simPrice last z t).getD i 0 * (1 + z (t + 1) i) ∧
    (StockApp.simColumn last z).getD t 0 = (StockApp.simPrice last z t).headD 0 ∧
    (StockApp.simulation_df last draws).getD x [] =
      StockApp.simColumn last (draws x) := by
  refine ⟨StockApp.getD_perturb _ _ i hi, ?_, ?_, ?_⟩
  · have hi' : i < (StockApp.simPrice last z t).length := by
      rw [StockApp.length_simPrice]; exact hi
    exact StockApp.getD_perturb _ _ i hi'
  · rw [StockApp.simColumn, StockApp.price_series, List.map_map,
      StockApp.getD_map_range _ _ t _ ht]
    rfl
  · rw [StockApp.simulation_df, StockApp.getD_map_range _ _ x _ hx]

/-- Witness for C4 at `last = [1]`, all draws `0`, path/step/ticker `0`. -/
theorem C4_witness :
    (StockApp.simPrice [(1 : ℝ)] (fun _ _ => 0) 0).getD 0 0 =
      [(1 : ℝ)].getD 0 0 * (1 + 0) ∧
    (StockApp.simPrice [(1 : ℝ)] (fun _ _ => 0) (0 + 1)).getD 0 0 =
      (StockApp.simPrice [(1 : ℝ)] (fun _ _ => 0) 0).getD 0 0 * (1 + 0) ∧
    (StockApp.simColumn [(1 : ℝ)] (fun _ _ => 0)).getD 0 0 =
      (StockApp.simPrice [(1 : ℝ)] (fun _ _ => 0) 0).headD 0 ∧
    (StockApp.simulation_df [(1 : ℝ)] (fun _ _ _ => 0)).getD 0 [] =
      StockApp.simColumn [(1 : ℝ)] ((fun _ _ _ => 0) 0) :=
  C4_simulation_steps [(1 : ℝ)] (fun _ _ => 0) (fun _ _ _ => 0) 0 0 0
    (by norm_num [StockApp.num_simulations]) (by norm_num [StockApp.num_days])
    (by norm_num)

/-- **C5 counterexample.** The claim "all simulation values are strictly
positive for every sequence of random draws" fails: on the price table
`[[1], [2], [1]]` (non-empty, positive last price `1`, daily volatility
`√(9/8) > 0`), the constant draw `-2` makes the very first stored simulation
value negative. -/
theorem C5_counterexample :
    StockApp.isEmpty [[(1 : ℝ)], [2], [1]] = false ∧
    ([[(1 : ℝ)], [2], [1]] : StockApp.DataFrame ℝ).getLastD [] = [(1 : ℝ)] ∧
    0 < StockApp.std (StockApp.col
      (StockApp.daily_returns [[(1 : ℝ)], [2], [1]]) 0) ∧
    ((StockApp.simulation_df
        (([[(1 : ℝ)], [2], [1]] : StockApp.DataFrame ℝ).getLastD [])
        (fun _ _ _ => -2)).getD 0 []).getD 0 0 < 0 := by
  refine ⟨rfl, rfl, ?_, ?_⟩
  · have hR : StockApp.daily_returns [[(1 : ℝ)], [2], [1]] = [[1], [-(1/2)]] := by
      norm_num [StockApp.daily_returns, StockApp.pct_change, StockApp.pct_changeAux,
        StockApp.dropna, List.filterMap_cons]
    have hcol : StockApp.col ([[(1 : ℝ)], [-(1/2)]] : StockApp.DataFrame ℝ) 0 =
        [1, -(1/2)] := by
      simp [StockApp.col]
    have hv : StockApp.svar [(1 : ℝ), -(1/2)] = 9/8 := by
      norm_num [StockApp.svar, StockApp.cov, StockApp.mean, Finset.sum_range_succ,
        List.getD_cons_zero, List.getD_cons_succ, List.sum_cons]
    rw [hR, hcol, StockApp.std, hv]
    exact Real.sqrt_pos.mpr (by norm_num)
  · rw [show ([[(1 : ℝ)], [2], [1]] : StockApp.DataFrame ℝ).getLastD [] = [(1 : ℝ)]
      from rfl]
    rw [StockApp.simulation_df,
      StockApp.getD_map_range _ _ 0 _ (by norm_num [StockApp.num_simulations])]
    rw [StockApp.simColumn, StockApp.price_series, List.map_map,
      StockApp.getD_map_range _ _ 0 _ (by norm_num [StockApp.num_days])]
    show (StockApp.simPrice [(1 : ℝ)] (fun _ _ => -2) 0).headD 0 < 0
    rw [show StockApp.simPrice [(1 : ℝ)] (fun _ _ => -2) 0 =
      [(1 : ℝ) * (1 + -2)] from rfl]
    norm_num

/-- **C5 (amended).** The simulation table always has exactly 50 columns of
252 values each; and when the last observed prices are positive and every
random draw exceeds `-1` (each factor `1 + draw` positive — which a positive
daily volatility alone does not guarantee), every value is strictly
positive. -/
theorem C5_simulation_shape (last : List ℝ) (draws : ℕ → ℕ → ℕ → ℝ) :
    (StockApp.simulation_df last draws).length = 50 ∧
    (∀ c ∈ StockApp.simulation_df last draws, c.length = 252) ∧
    (last ≠ [] → (∀ p ∈ last, 0 < p) → (∀ x t i, -1 < draws x t i) →
      ∀ c ∈ StockApp.simulation_df last draws, ∀ v ∈ c, 0 < v) := by
  refine ⟨by simp [StockApp.simulation_df, StockApp.num_simulations], ?_, ?_⟩
  · intro c hc
    rw [StockApp.simulation_df] at hc
    obtain ⟨x, hxmem, rfl⟩ := List.mem_map.mp hc
    simp [StockApp.simColumn, StockApp.price_series, StockApp.num_days]
  · intro hlast hpos hdraws c hc v hv
    have h0 : 0 < last.headD 0 := by
      cases last with
      | nil => exact absurd rfl hlast
      | cons a rest => exact hpos a (by simp)
    rw [StockApp.simulation_df] at hc
    obtain ⟨x, hxmem, rfl⟩ := List.mem_map.mp hc
    rw [StockApp.simColumn] at hv
    obtain ⟨p, hpmem, rfl⟩ := List.mem_map.mp hv
    rw [StockApp.price_series] at hpmem
    obtain ⟨t, htmem, rfl⟩ := List.mem_map.mp hpmem
    exact StockApp.simPrice_headD_pos last (draws x) hlast h0
      (fun s i => hdraws x s i) t

/-- Witness for the amended C5 at `last = [1]` and all draws `0`: the shape
parts hold outright and the positivity hypotheses are discharged there. -/
theorem C5_witness :
    (StockApp.simulation_df [(1 : ℝ)] (fun _ _ _ => 0)).length = 50 ∧
    (∀ c ∈ StockApp.simulation_df [(1 : ℝ)] (fun _ _ _ => 0), c.length = 252) ∧
    (∀ c ∈ StockApp.simulation_df [(1 : ℝ)] (fun _ _ _ => 0), ∀ v ∈ c, 0 < v) :=
  ⟨(C5_simulation_shape [(1 : ℝ)] (fun _ _ _ => 0)).1,
   (C5_simulation_shape [(1 : ℝ)] (fun _ _ _ => 0)).2.1,
   (C5_simulation_shape [(1 : ℝ)] (fun _ _ _ => 0)).2.2 (by simp)
     (by intro p hp; simp at hp; simp [hp]) (by intro x t i; norm_num)⟩

/-- **C10.** The input normalizer never returns the empty list (splitting on
commas yields at least one segment), and on any input made only of commas and
whitespace — the empty string included — every resulting ticker is the empty
string. -/
theorem C10_ticker_list_nonempty (s : List Char) :
    StockApp.ticker_list s ≠ [] ∧
    ((∀ c ∈ s, c = ',' ∨ c.isWhitespace = true) →
      ∀ t ∈ StockApp.ticker_list s, t = ([] : List Char)) := by
  constructor
  · intro hnil
    cases hsc : StockApp.split_commas s with
    | nil => exact StockApp.split_commas_ne_nil s hsc
    | cons g gs =>
      rw [StockApp.ticker_list, hsc] at hnil
      simp at hnil
  · intro hall t ht
    rw [StockApp.ticker_list] at ht
    obtain ⟨g, hg, rfl⟩ := List.mem_map.mp ht
    have hws : ∀ c ∈ g, c.isWhitespace = true := by
      intro c hc
      obtain ⟨hin, hnc⟩ := StockApp.mem_split_commas s g hg c hc
      rcases hall c hin with h1 | h2
      · exact absurd h1 hnc
      · exact h2
    rw [StockApp.stripChars_of_all_whitespace g hws]
    rfl

/-- Witness for C10 on the comma-and-space input `", "`. -/
theorem C10_witness :
    StockApp.ticker_list [',', ' '] ≠ [] ∧
    ∀ t ∈ StockApp.ticker_list [',', ' '], t = ([] : List Char) :=
  ⟨(C10_ticker_list_nonempty [',', ' ']).1,
   (C10_ticker_list_nonempty [',', ' ']).2 (by decide)⟩
